import Mathlib

/-!
Shallow embedding of `src/compiletest/errors.rs`: the expected-diagnostic
annotation scanner (`parse_expected`, `load_errors`).

Strings are modelled as `List Char` (one entry per Unicode scalar value);
the byte offsets of the source coincide with character offsets at every
position the code slices at, because the characters between the trigger
token and the slice points (`^`, `|`) are ASCII.  `str::char_at` is
modelled as an `Option`-returning lookup, `none` standing for the
out-of-bounds panic.  `usize` subtraction is modelled with release-mode
wrap-around modulo 2^64.
-/

namespace CompiletestErrors

/-- Size of the `usize` value space (64-bit target). -/
def USIZE : Nat := 2 ^ 64

/-- Release-mode `usize` subtraction: `a - b` wrapping modulo 2^64.
For `b ≤ a < 2^64` this is ordinary subtraction. -/
def usizeSub (a b : Nat) : Nat := (a + (USIZE - b % USIZE)) % USIZE

/-- Does `tag` occur as a prefix of `l`?  (The per-position test performed
by `str::find` while sliding over the haystack.) -/
def matchesAt : List Char → List Char → Bool
  | [], _ => true
  | _ :: _, [] => false
  | t :: ts, c :: cs => t == c && matchesAt ts cs

/-- Model of `str::find(tag)`: index of the first occurrence of the
substring `tag`, or `none`. -/
def findSub (tag : List Char) : List Char → Option Nat
  | [] => if matchesAt tag [] then some 0 else none
  | c :: cs =>
      if matchesAt tag (c :: cs) then some 0
      else (findSub tag cs).map (fun i => i + 1)

/-- Model of `str::char_at(i)`: the character starting at offset `i`;
`none` models the out-of-bounds panic when `i` is past the end. -/
def char_at (line : List Char) (i : Nat) : Option Char :=
  (line.drop i).head?

/-- Rust `char::is_whitespace`: the Unicode White_Space property, per the
`libunicode` tables of this compiler era — U+0009–U+000D (tab, LF,
vertical tab, form feed, CR), U+0020 (space), U+0085 (NEL), U+00A0
(no-break space), U+1680 (Ogham space mark), U+2000–U+200A (typographic
spaces), U+2028 (line separator), U+2029 (paragraph separator), U+202F
(narrow no-break space), U+205F (medium mathematical space), U+3000
(ideographic space). -/
def rustIsWhitespace (c : Char) : Bool :=
  let n := c.toNat
  (decide (0x9 ≤ n) && decide (n ≤ 0xD)) || n == 0x20 || n == 0x85 ||
  n == 0xA0 || n == 0x1680 ||
  (decide (0x2000 ≤ n) && decide (n ≤ 0x200A)) || n == 0x2028 ||
  n == 0x2029 || n == 0x202F || n == 0x205F || n == 0x3000

/-- Modelled from the spec: the per-character lower-casing applied to the
kind token (`char::to_lowercase`).  The Unicode conversion tables backing
`char::to_lowercase` live in the repository's `libunicode` crate, outside
the sources under scan here; the spec says only that each collected kind
character is lower-cased and exhibits ASCII case pairs
(`ERROR`/`Error`/`eRrOr` all give `error`), so this model lower-cases
`A`–`Z` and leaves every other character unchanged, always as a
one-character sequence. -/
def rustCharToLowercase (c : Char) : List Char := [c.toLower]

/-- `Iterator::flat_map` followed by `collect`, specialised to characters. -/
def flatMapChars (f : Char → List Char) : List Char → List Char
  | [] => []
  | c :: cs => f c ++ flatMapChars f cs

/-- Model of `str::trim`: strip Unicode whitespace from both ends. -/
def rustTrim (l : List Char) : List Char :=
  ((l.dropWhile rustIsWhitespace).reverse.dropWhile rustIsWhitespace).reverse

/-- Does the first character of the list (if any) satisfy `p`? -/
def headSat (p : Char → Bool) : List Char → Bool
  | [] => true
  | c :: _ => p c

/-- The output record of the scanner (`pub struct ExpectedError`). -/
structure ExpectedError where
  line_num : Nat
  kind : List Char
  msg : List Char
deriving DecidableEq

/-- `enum WhichLine` of the source: how a matched line resolves its
target line number. -/
inductive WhichLine
  | ThisLine : WhichLine
  | FollowPrevious : Nat → WhichLine
  | AdjustBackward : Nat → WhichLine
deriving DecidableEq

/-- The three ways `parse_expected` can abort the process:
the `char_at` call past the end of the line (index out of bounds),
the `assert!(adjusts == 0, "use either //~| or //~^, not both.")`,
and the `.expect("encountered //~| without preceding //~^ line.")`. -/
inductive Failure
  | charAtOutOfBounds : Failure
  | bothFollowAndAdjust : Failure
  | followWithoutAnchor : Failure
deriving DecidableEq

/-- Result of one `parse_expected` call: `noMatch` models `None`,
`ok` models `Some((which, error))`, `fatal` models a panic. -/
inductive ParseResult
  | noMatch : ParseResult
  | fatal : Failure → ParseResult
  | ok : WhichLine → ExpectedError → ParseResult
deriving DecidableEq

/-- The `kind` computation of `parse_expected`: from `line[kind_start..]`,
skip whitespace, take the non-whitespace run, lower-casing each character. -/
def kindAt (line : List Char) (kind_start : Nat) : List Char :=
  flatMapChars rustCharToLowercase
    (((line.drop kind_start).dropWhile rustIsWhitespace).takeWhile
      (fun ch => !rustIsWhitespace ch))

/-- The `msg` computation of `parse_expected`: re-scan `line[kind_start..]`
from the same offset, skip whitespace, skip the non-whitespace kind token,
keep the rest, trimmed. -/
def msgAt (line : List Char) (kind_start : Nat) : List Char :=
  rustTrim (((line.drop kind_start).dropWhile rustIsWhitespace).dropWhile
    (fun ch => !rustIsWhitespace ch))

/-- Direct translation of `fn parse_expected` from
`src/compiletest/errors.rs`.  The `debug!` call is a no-op log. -/
def parse_expected (last_nonfollow_error : Option Nat) (line_num : Nat)
    (line : List Char) (tag : List Char) : ParseResult :=
  match findSub tag line with
  | none => ParseResult.noMatch
  | some start =>
    match char_at line (start + tag.length) with
    | none => ParseResult.fatal Failure.charAtOutOfBounds
    | some c =>
      let follow : Bool := c == '|'
      let adjusts : Nat :=
        if follow then 0
        else ((line.drop (start + tag.length)).takeWhile (fun ch => ch == '^')).length
      let kind_start : Nat := start + tag.length + adjusts + (if follow then 1 else 0)
      let kind : List Char := kindAt line kind_start
      let msg : List Char := msgAt line kind_start
      if follow then
        if adjusts ≠ 0 then ParseResult.fatal Failure.bothFollowAndAdjust
        else
          match last_nonfollow_error with
          | none => ParseResult.fatal Failure.followWithoutAnchor
          | some anchor =>
              ParseResult.ok (WhichLine.FollowPrevious anchor)
                ⟨anchor, kind, msg⟩
      else
        ParseResult.ok
          (if adjusts > 0 then WhichLine.AdjustBackward adjusts else WhichLine.ThisLine)
          ⟨usizeSub line_num adjusts, kind, msg⟩

/-- The trigger token built by `load_errors`:
`format!("//[{}]~", rev)` when a cfg is supplied, else `"//~"`. -/
def mkTag : Option (List Char) → List Char
  | some rev => "//[".toList ++ rev ++ "]~".toList
  | none => "//~".toList

/-- The state update performed in the `map` callback of `load_errors`:
a non-follow record becomes the new remembered anchor, a follow record
leaves it unchanged. -/
def updateAnchor (last : Option Nat) (which : WhichLine) (err : ExpectedError) :
    Option Nat :=
  match which with
  | WhichLine.FollowPrevious _ => last
  | _ => some err.line_num

/-- The `lines().enumerate().filter_map(...)` loop of `load_errors`,
threading the `last_nonfollow_error` state and the 0-based enumeration
index; a panic inside `parse_expected` aborts the whole scan. -/
def load_errors_go (tag : List Char) :
    Option Nat → Nat → List (List Char) → Except Failure (List ExpectedError)
  | _, _, [] => Except.ok []
  | last, idx, l :: ls =>
    match parse_expected last (idx + 1) l tag with
    | ParseResult.noMatch => load_errors_go tag last (idx + 1) ls
    | ParseResult.fatal f => Except.error f
    | ParseResult.ok which err =>
        (load_errors_go tag (updateAnchor last which err) (idx + 1) ls).map
          (fun rest => err :: rest)

/-- Translation of `pub fn load_errors`: the input is the already-read
sequence of lines of the test file (file IO is an external collaborator). -/
def load_errors (lines : List (List Char)) (cfg : Option (List Char)) :
    Except Failure (List ExpectedError) :=
  load_errors_go (mkTag cfg) none 0 lines

/-- Ghost-instrumented variant of `load_errors_go` that also records the
`WhichLine` of each emitted record; it performs exactly the same
computation (see `load_errors_go_eq_scanTrace`). -/
def scanTrace (tag : List Char) :
    Option Nat → Nat → List (List Char) →
      Except Failure (List (WhichLine × ExpectedError))
  | _, _, [] => Except.ok []
  | last, idx, l :: ls =>
    match parse_expected last (idx + 1) l tag with
    | ParseResult.noMatch => scanTrace tag last (idx + 1) ls
    | ParseResult.fatal f => Except.error f
    | ParseResult.ok which err =>
        (scanTrace tag (updateAnchor last which err) (idx + 1) ls).map
          (fun rest => (which, err) :: rest)

/-- The anchor remembered after replaying a trace from initial anchor `a`. -/
def anchorState : Option Nat → List (WhichLine × ExpectedError) → Option Nat
  | a, [] => a
  | a, (w, e) :: rest => anchorState (updateAnchor a w e) rest

/-- Invariant of a scan trace started with anchor `a`: every
`FollowPrevious` entry carries and resolves to the anchor remembered at
that point of the trace. -/
def FollowOk : Option Nat → List (WhichLine × ExpectedError) → Prop
  | _, [] => True
  | a, (w, e) :: rest =>
      (∀ m, w = WhichLine.FollowPrevious m → a = some m ∧ e.line_num = m) ∧
      FollowOk (updateAnchor a w e) rest

/-! ### Helper lemmas -/

theorem matchesAt_append_self (tag rest : List Char) :
    matchesAt tag (tag ++ rest) = true := by
  induction tag with
  | nil => rfl
  | cons c cs ih => simp [matchesAt, ih]

theorem findSub_of_matchesAt (tag l : List Char) (h : matchesAt tag l = true) :
    findSub tag l = some 0 := by
  cases l with
  | nil => simp [findSub, h]
  | cons c cs => simp [findSub, h]

theorem findSub_prefix (tag rest : List Char) :
    findSub tag (tag ++ rest) = some 0 :=
  findSub_of_matchesAt _ _ (matchesAt_append_self tag rest)

theorem drop_append_self (xs ys : List Char) : (xs ++ ys).drop xs.length = ys := by
  induction xs with
  | nil => rfl
  | cons c cs ih => simp [ih]

theorem char_at_length (l : List Char) : char_at l l.length = none := by
  simp [char_at]

theorem usizeSub_zero (a : Nat) (h : a < USIZE) : usizeSub a 0 = a := by
  simp [usizeSub, Nat.mod_eq_of_lt h]

theorem usizeSub_of_le (a b : Nat) (hle : b ≤ a) (ha : a < USIZE) :
    usizeSub a b = a - b := by
  have hb : b < USIZE := Nat.lt_of_le_of_lt hle ha
  have hbm : b % USIZE = b := Nat.mod_eq_of_lt hb
  have h1 : a + (USIZE - b) = (a - b) + USIZE := by omega
  have h2 : a - b < USIZE := by omega
  simp [usizeSub, hbm, h1, Nat.add_mod_right, Nat.mod_eq_of_lt h2]

theorem usizeSub_of_ge (a b : Nat) (hge : a ≤ b)
    (haU : a < USIZE) (hbU : b < USIZE) :
    usizeSub a b = 0 ∨ a < usizeSub a b := by
  have hbm : b % USIZE = b := Nat.mod_eq_of_lt hbU
  rcases Nat.eq_or_lt_of_le hge with heq | hlt
  · left
    subst heq
    have h1 : a + (USIZE - a) = USIZE := by omega
    simp [usizeSub, hbm, h1, Nat.mod_self]
  · right
    have h1 : a + (USIZE - b) < USIZE := by omega
    have h2 : a < a + (USIZE - b) := by omega
    calc a < a + (USIZE - b) := h2
      _ = (a + (USIZE - b)) % USIZE := (Nat.mod_eq_of_lt h1).symm
      _ = usizeSub a b := by simp [usizeSub, hbm]

theorem dropWhile_append_all {p : Char → Bool} (w x : List Char)
    (hw : ∀ c ∈ w, p c = true) :
    (w ++ x).dropWhile p = x.dropWhile p := by
  induction w with
  | nil => rfl
  | cons c cs ih =>
      have hc : p c = true := hw c (List.mem_cons_self c cs)
      simp only [List.cons_append, List.dropWhile_cons, hc, if_true]
      exact ih (fun d hd => hw d (List.mem_cons_of_mem c hd))

theorem takeWhile_token_split {p : Char → Bool} (t r : List Char)
    (ht : ∀ c ∈ t, p c = true) (hr : headSat (fun c => !p c) r = true) :
    (t ++ r).takeWhile p = t ∧ (t ++ r).dropWhile p = r := by
  induction t with
  | nil =>
      cases r with
      | nil => exact ⟨rfl, rfl⟩
      | cons c cs =>
          have hc : p c = false := by
            have := hr
            simp [headSat] at this
            simpa using this
          constructor
          · simp [List.takeWhile_cons, hc]
          · simp [List.dropWhile_cons, hc]
  | cons c cs ih =>
      have hc : p c = true := ht c (List.mem_cons_self c cs)
      have ih' := ih (fun d hd => ht d (List.mem_cons_of_mem c hd))
      constructor
      · simp only [List.cons_append, List.takeWhile_cons, hc, if_true]
        exact congrArg (c :: ·) ih'.1
      · simp only [List.cons_append, List.dropWhile_cons, hc, if_true]
        exact ih'.2

theorem takeWhile_caret_replicate (k : Nat) (x : List Char)
    (hx : headSat (fun c => !(c == '^')) x = true) :
    ((List.replicate k '^' ++ x).takeWhile (fun ch => ch == '^')).length = k := by
  induction k with
  | zero =>
      cases x with
      | nil => rfl
      | cons c cs =>
          have hc : (c == '^') = false := by
            have := hx
            simp [headSat] at this
            simpa using this
          simp [List.takeWhile_cons, hc]
  | succ n ih =>
      have h : ((List.replicate (n + 1) '^' ++ x).takeWhile (fun ch => ch == '^')) =
          '^' :: ((List.replicate n '^' ++ x).takeWhile (fun ch => ch == '^')) := by
        simp [List.replicate_succ, List.takeWhile_cons]
      rw [h, List.length_cons, ih]

/-! ### Characterisations of the branches of `parse_expected` -/

theorem parse_expected_noMatch (last : Option Nat) (L : Nat) (line tag : List Char)
    (hf : findSub tag line = none) :
    parse_expected last L line tag = ParseResult.noMatch := by
  simp [parse_expected, hf]

theorem parse_expected_eol (last : Option Nat) (L : Nat) (line tag : List Char)
    (start : Nat) (hf : findSub tag line = some start)
    (hlen : line.length = start + tag.length) :
    parse_expected last L line tag = ParseResult.fatal Failure.charAtOutOfBounds := by
  have hcn : char_at line (start + tag.length) = none := by
    rw [← hlen]
    exact char_at_length line
  simp [parse_expected, hf, hcn]

theorem parse_expected_follow (last : Option Nat) (L : Nat) (line tag : List Char)
    (start : Nat) (hf : findSub tag line = some start)
    (hc : char_at line (start + tag.length) = some '|') :
    parse_expected last L line tag =
      match last with
      | none => ParseResult.fatal Failure.followWithoutAnchor
      | some anchor =>
          ParseResult.ok (WhichLine.FollowPrevious anchor)
            ⟨anchor, kindAt line (start + tag.length + 1),
                     msgAt line (start + tag.length + 1)⟩ := by
  cases last with
  | none => simp [parse_expected, hf, hc]
  | some anchor => simp [parse_expected, hf, hc]

theorem parse_expected_adjust (last : Option Nat) (L : Nat) (line tag : List Char)
    (start c : _) (n : Nat) (hf : findSub tag line = some start)
    (hc : char_at line (start + tag.length) = some c)
    (hcp : (c == '|') = false)
    (hn : ((line.drop (start + tag.length)).takeWhile (fun ch => ch == '^')).length = n) :
    parse_expected last L line tag =
      ParseResult.ok
        (if n > 0 then WhichLine.AdjustBackward n else WhichLine.ThisLine)
        ⟨usizeSub L n, kindAt line (start + tag.length + n),
                       msgAt line (start + tag.length + n)⟩ := by
  simp [parse_expected, hf, hc, hcp, hn]

/-- The kind/msg computation at offset `ks`, for a line whose text from
`ks` on splits as whitespace ++ token ++ rest, with the token the first
maximal non-whitespace run (whitespace per Unicode White_Space). -/
theorem kind_msg_at_decomp (line : List Char) (ks : Nat) (w t r : List Char)
    (hdrop : line.drop ks = w ++ (t ++ r))
    (hw : w.all rustIsWhitespace = true)
    (ht : t.all (fun c => !rustIsWhitespace c) = true)
    (htne : t ≠ [])
    (hr : headSat rustIsWhitespace r = true) :
    kindAt line ks = flatMapChars rustCharToLowercase t ∧
    msgAt line ks = rustTrim r := by
  have hdw : (w ++ (t ++ r)).dropWhile rustIsWhitespace = t ++ r := by
    have h1 := dropWhile_append_all (p := rustIsWhitespace) w (t ++ r)
      (fun c hc2 => (List.all_eq_true.mp hw) c hc2)
    rw [h1]
    cases t with
    | nil => exact absurd rfl htne
    | cons a as =>
        have ha : rustIsWhitespace a = false := by
          have h3 := (List.all_eq_true.mp ht) a (List.mem_cons_self a as)
          simpa using h3
        simp [List.dropWhile_cons, ha]
  have hsplit := takeWhile_token_split (p := fun c => !rustIsWhitespace c) t r
      (fun c hc2 => (List.all_eq_true.mp ht) c hc2)
      (by cases r with
          | nil => rfl
          | cons a as =>
              have ha : rustIsWhitespace a = true := by simpa [headSat] using hr
              simp [headSat, ha])
  constructor
  · unfold kindAt
    rw [hdrop, hdw, hsplit.1]
  · unfold msgAt
    rw [hdrop, hdw, hsplit.2]

/-- Workhorse, non-follow case: a matched line whose text after the
trigger occurrence (at any offset `s`) is `"^"*k ++ whitespace ++ token
++ rest` — the token a maximal non-whitespace run, the character after
the caret run neither `^` nor, when `k = 0`, `|` — parses to a
non-follow record: `line_num` by wrapping subtraction, kind the
lower-cased token, msg the trimmed rest. -/
theorem parse_decomp (last : Option Nat) (L k s : Nat) (line tag w t r : List Char)
    (hf : findSub tag line = some s)
    (hrest : line.drop (s + tag.length) = List.replicate k '^' ++ (w ++ (t ++ r)))
    (hw : w.all rustIsWhitespace = true)
    (ht : t.all (fun c => !rustIsWhitespace c) = true)
    (htne : t ≠ [])
    (hr : headSat rustIsWhitespace r = true)
    (hsep1 : headSat (fun c => !(c == '^')) (w ++ (t ++ r)) = true)
    (hsep2 : k = 0 → headSat (fun c => !(c == '|')) (w ++ (t ++ r)) = true) :
    parse_expected last L line tag =
      ParseResult.ok
        (if k > 0 then WhichLine.AdjustBackward k else WhichLine.ThisLine)
        ⟨usizeSub L k, flatMapChars rustCharToLowercase t, rustTrim r⟩ := by
  obtain ⟨c, hc, hcp⟩ :
      ∃ c, char_at line (s + tag.length) = some c ∧ (c == '|') = false := by
    cases k with
    | zero =>
        obtain ⟨c, cs, hx⟩ : ∃ c cs, w ++ (t ++ r) = c :: cs := by
          cases w with
          | cons a as => exact ⟨a, as ++ (t ++ r), rfl⟩
          | nil =>
              cases t with
              | nil => exact absurd rfl htne
              | cons a as => exact ⟨a, as ++ r, by simp⟩
        refine ⟨c, ?_, ?_⟩
        · unfold char_at
          rw [hrest, hx]
          rfl
        · have h2 := hsep2 rfl
          rw [hx] at h2
          simpa [headSat] using h2
    | succ m =>
        refine ⟨'^', ?_, by decide⟩
        unfold char_at
        rw [hrest]
        rfl
  have hcnt : ((line.drop (s + tag.length)).takeWhile
      (fun ch => ch == '^')).length = k := by
    rw [hrest]
    exact takeWhile_caret_replicate k _ hsep1
  rw [parse_expected_adjust last L line tag s c k hf hc hcp hcnt]
  have hdrop2 : line.drop (s + tag.length + k) = w ++ (t ++ r) := by
    rw [← List.drop_drop, hrest]
    have h4 := drop_append_self (List.replicate k '^') (w ++ (t ++ r))
    rw [List.length_replicate] at h4
    exact h4
  obtain ⟨hk, hm⟩ := kind_msg_at_decomp line (s + tag.length + k) w t r
    hdrop2 hw ht htne hr
  rw [hk, hm]

/-- Workhorse, follow case: a matched line whose text after the trigger
occurrence (at any offset `s`) is `|` followed by whitespace ++ token ++
rest parses, when an anchor is remembered, to a `FollowPrevious` record
carrying the anchor, the lower-cased token and the trimmed rest. -/
theorem parse_decomp_follow (L s a : Nat) (line tag w t r : List Char)
    (hf : findSub tag line = some s)
    (hrest : line.drop (s + tag.length) = '|' :: (w ++ (t ++ r)))
    (hw : w.all rustIsWhitespace = true)
    (ht : t.all (fun c => !rustIsWhitespace c) = true)
    (htne : t ≠ [])
    (hr : headSat rustIsWhitespace r = true) :
    parse_expected (some a) L line tag =
      ParseResult.ok (WhichLine.FollowPrevious a)
        ⟨a, flatMapChars rustCharToLowercase t, rustTrim r⟩ := by
  have hc : char_at line (s + tag.length) = some '|' := by
    unfold char_at
    rw [hrest]
    rfl
  rw [parse_expected_follow (some a) L line tag s hf hc]
  have hdrop2 : line.drop (s + tag.length + 1) = w ++ (t ++ r) := by
    rw [← List.drop_drop, hrest]
    rfl
  obtain ⟨hk, hm⟩ := kind_msg_at_decomp line (s + tag.length + 1) w t r
    hdrop2 hw ht htne hr
  rw [hk, hm]

theorem parse_expected_oob (last : Option Nat) (L : Nat) (line tag : List Char)
    (start : Nat) (hf : findSub tag line = some start)
    (hc : char_at line (start + tag.length) = none) :
    parse_expected last L line tag = ParseResult.fatal Failure.charAtOutOfBounds := by
  simp [parse_expected, hf, hc]

/-- Inversion: a `FollowPrevious m` result is only produced when the
remembered anchor is `some m`, and the record's `line_num` is that anchor. -/
theorem parse_follow_inv (last : Option Nat) (L : Nat) (line tag : List Char)
    (m : Nat) (e : ExpectedError)
    (h : parse_expected last L line tag = ParseResult.ok (WhichLine.FollowPrevious m) e) :
    last = some m ∧ e.line_num = m := by
  cases hfind : findSub tag line with
  | none =>
      rw [parse_expected_noMatch last L line tag hfind] at h
      cases h
  | some start =>
      cases hchar : char_at line (start + tag.length) with
      | none =>
          rw [parse_expected_oob last L line tag start hfind hchar] at h
          cases h
      | some c =>
          by_cases hcp : (c == '|') = true
          · have hc' : char_at line (start + tag.length) = some '|' := by
              rw [hchar]
              have : c = '|' := by simpa using hcp
              rw [this]
            rw [parse_expected_follow last L line tag start hfind hc'] at h
            cases last with
            | none => cases h
            | some anchor =>
                simp only [ParseResult.ok.injEq, WhichLine.FollowPrevious.injEq] at h
                obtain ⟨ham, he⟩ := h
                subst ham
                exact ⟨rfl, by rw [← he]⟩
          · have hcpf : (c == '|') = false := by simpa using hcp
            rw [parse_expected_adjust last L line tag start c
              (((line.drop (start + tag.length)).takeWhile (fun ch => ch == '^')).length)
              hfind hchar hcpf rfl] at h
            split at h <;> simp at h

theorem load_errors_go_cons (tag l : List Char) (ls : List (List Char))
    (last : Option Nat) (idx : Nat) :
    load_errors_go tag last idx (l :: ls)
      = match parse_expected last (idx + 1) l tag with
        | ParseResult.noMatch => load_errors_go tag last (idx + 1) ls
        | ParseResult.fatal f => Except.error f
        | ParseResult.ok which err =>
            (load_errors_go tag (updateAnchor last which err) (idx + 1) ls).map
              (fun rest => err :: rest) := rfl

theorem scanTrace_cons (tag l : List Char) (ls : List (List Char))
    (last : Option Nat) (idx : Nat) :
    scanTrace tag last idx (l :: ls)
      = match parse_expected last (idx + 1) l tag with
        | ParseResult.noMatch => scanTrace tag last (idx + 1) ls
        | ParseResult.fatal f => Except.error f
        | ParseResult.ok which err =>
            (scanTrace tag (updateAnchor last which err) (idx + 1) ls).map
              (fun rest => (which, err) :: rest) := rfl

/-- The scan and its ghost-instrumented version agree. -/
theorem load_errors_go_eq_scanTrace (tag : List Char) (ls : List (List Char))
    (last : Option Nat) (idx : Nat) :
    load_errors_go tag last idx ls
      = (scanTrace tag last idx ls).map (List.map Prod.snd) := by
  induction ls generalizing last idx with
  | nil => rfl
  | cons l ls ih =>
      rw [load_errors_go_cons, scanTrace_cons]
      cases hp : parse_expected last (idx + 1) l tag with
      | noMatch => exact ih _ _
      | fatal f => rfl
      | ok which err =>
          show (load_errors_go tag (updateAnchor last which err) (idx + 1) ls).map
                (fun rest => err :: rest)
              = ((scanTrace tag (updateAnchor last which err) (idx + 1) ls).map
                (fun rest => (which, err) :: rest)).map (List.map Prod.snd)
          rw [ih]
          cases scanTrace tag (updateAnchor last which err) (idx + 1) ls with
          | error f => rfl
          | ok t => rfl

/-- Every successful scan trace satisfies the follow/anchor invariant. -/
theorem followOk_of_scanTrace (tag : List Char) (ls : List (List Char))
    (last : Option Nat) (idx : Nat) (t : List (WhichLine × ExpectedError))
    (h : scanTrace tag last idx ls = Except.ok t) :
    FollowOk last t := by
  induction ls generalizing last idx t with
  | nil =>
      have h' : ([] : List (WhichLine × ExpectedError)) = t := by
        have h2 : Except.ok ([] : List (WhichLine × ExpectedError)) = Except.ok t := h
        injection h2
      subst h'
      trivial
  | cons l ls ih =>
      rw [scanTrace_cons] at h
      cases hp : parse_expected last (idx + 1) l tag with
      | noMatch =>
          rw [hp] at h
          exact ih _ _ _ (by exact h)
      | fatal f =>
          rw [hp] at h
          exact absurd (by exact h) (by intro hcontra; cases hcontra)
      | ok which err =>
          rw [hp] at h
          have h2 : (scanTrace tag (updateAnchor last which err) (idx + 1) ls).map
              (fun rest => (which, err) :: rest) = Except.ok t := h
          cases hs : scanTrace tag (updateAnchor last which err) (idx + 1) ls with
          | error f =>
              rw [hs] at h2
              cases h2
          | ok t' =>
              rw [hs] at h2
              have h3 : (which, err) :: t' = t := by
                injection h2
              subst h3
              exact ⟨fun m hm => parse_follow_inv last (idx + 1) l tag m err (hm ▸ hp),
                     ih _ _ _ hs⟩

theorem anchorState_append (a : Option Nat) (xs ys : List (WhichLine × ExpectedError)) :
    anchorState a (xs ++ ys) = anchorState (anchorState a xs) ys := by
  induction xs generalizing a with
  | nil => rfl
  | cons p ps ih =>
      obtain ⟨w, e⟩ := p
      show anchorState (updateAnchor a w e) (ps ++ ys) = _
      rw [ih]
      rfl

theorem anchorState_all_follow (t : List (WhichLine × ExpectedError)) :
    ∀ a, (∀ p ∈ t, ∃ m, p.1 = WhichLine.FollowPrevious m) → anchorState a t = a := by
  induction t with
  | nil => intro a _; rfl
  | cons p ps ih =>
      intro a h
      obtain ⟨w, e⟩ := p
      obtain ⟨m, hm⟩ := h (w, e) (List.mem_cons_self _ _)
      have hm' : w = WhichLine.FollowPrevious m := hm
      have hupd : updateAnchor a w e = a := by
        rw [hm']
        rfl
      show anchorState (updateAnchor a w e) ps = a
      rw [hupd]
      exact ih a (fun q hq => h q (List.mem_cons_of_mem _ hq))

theorem followOk_append (xs ys : List (WhichLine × ExpectedError)) :
    ∀ a, FollowOk a (xs ++ ys) → FollowOk (anchorState a xs) ys := by
  induction xs with
  | nil => intro a h; exact h
  | cons p ps ih =>
      intro a h
      obtain ⟨w, e⟩ := p
      exact ih (updateAnchor a w e) h.2

/-- A non-follow entry updates the anchor to its own `line_num`. -/
theorem updateAnchor_non_follow (a : Option Nat) (w : WhichLine) (e : ExpectedError)
    (hw : ∀ m, w ≠ WhichLine.FollowPrevious m) :
    updateAnchor a w e = some e.line_num := by
  cases w with
  | ThisLine => rfl
  | AdjustBackward n => rfl
  | FollowPrevious m => exact absurd rfl (hw m)

/-- A scan started with no anchor aborts at the first matching line when
that line uses the follow syntax, regardless of the non-matching lines
before it. -/
theorem load_errors_go_follow_fatal (tag line : List Char) (post : List (List Char))
    (s : Nat) (hf : findSub tag line = some s)
    (hc : char_at line (s + tag.length) = some '|') :
    ∀ pre : List (List Char), (∀ l ∈ pre, findSub tag l = none) →
      ∀ idx, load_errors_go tag none idx (pre ++ line :: post)
        = Except.error Failure.followWithoutAnchor := by
  intro pre
  induction pre with
  | nil =>
      intro _ idx
      have hp : parse_expected none (idx + 1) line tag
          = ParseResult.fatal Failure.followWithoutAnchor := by
        rw [parse_expected_follow none (idx + 1) line tag s hf hc]
      rw [List.nil_append, load_errors_go_cons, hp]
  | cons l ls ih =>
      intro hpre idx
      have hn : parse_expected none (idx + 1) l tag = ParseResult.noMatch :=
        parse_expected_noMatch _ _ _ _ (hpre l (List.mem_cons_self _ _))
      rw [List.cons_append, load_errors_go_cons, hn]
      exact ih (fun q hq => hpre q (List.mem_cons_of_mem _ hq)) (idx + 1)

/-! ### Claim theorems -/

/-- Claim C1 (code-bug evidence): a line combining the follow marker with
carets, `//~|^ ERROR x`, is NOT rejected.  Because the `|` branch of
`parse_expected` unconditionally sets `adjusts = 0`, the assertion whose
message says to use either form but not both never fires; the scan
completes and the line yields a record (kind `"^"`, the carets being
consumed as ordinary kind text) targeting the anchor line, contradicting
the claimed fatal abort. -/
theorem C1_follow_with_carets_not_rejected :
    load_errors [("//~ ERROR a".toList), ("//~|^ ERROR x".toList)] none
      = Except.ok [⟨1, "error".toList, "a".toList⟩,
                   ⟨1, "^".toList, "ERROR x".toList⟩] := by
  rfl

/-- Claim C2 counterexample: a line that is exactly the trigger `//~`
does not complete without error and emits no record: the scan aborts with
the out-of-bounds `char_at` access one past the end of the line. -/
theorem C2_trigger_at_eol_panics :
    load_errors [("//~".toList)] none = Except.error Failure.charAtOutOfBounds := by
  rfl

/-- Claim C2 (amended): whenever the trigger occurrence found on a line
ends exactly at the end of the line (nothing at all follows it), the
scanner does not emit a `kind = "", msg = ""` record; `parse_expected`
aborts fatally with the out-of-bounds character access of `char_at`. -/
theorem C2_amended_eol_fatal (last : Option Nat) (L : Nat) (line tag : List Char)
    (s : Nat) (hf : findSub tag line = some s)
    (hlen : line.length = s + tag.length) :
    parse_expected last L line tag = ParseResult.fatal Failure.charAtOutOfBounds :=
  parse_expected_eol last L line tag s hf hlen

theorem C2_amended_eol_fatal_witness :
    findSub ("//~".toList) ("//~".toList) = some 0 ∧
    parse_expected none 1 ("//~".toList) ("//~".toList)
      = ParseResult.fatal Failure.charAtOutOfBounds :=
  ⟨by decide,
   C2_amended_eol_fatal none 1 ("//~".toList) ("//~".toList) 0 (by decide) (by decide)⟩

/-- Claim C3: a trigger followed by a run of n > 0 carets (hence no
follow marker) always yields a record whose `line_num` is the unchecked
wrapping usize subtraction `L - n`: the scan never fails on it, for
n ≤ L the value is the exact difference, and for n ≥ L the caller simply
obtains 0 or a wrapped-around value above L — out of the file's range. -/
theorem C3_adjust_unchecked (last : Option Nat) (L : Nat) (line tag : List Char)
    (s n : Nat) (hf : findSub tag line = some s)
    (hn : ((line.drop (s + tag.length)).takeWhile (fun ch => ch == '^')).length = n)
    (hpos : 0 < n) (hLU : L < USIZE) (hnU : n < USIZE) :
    (∃ k m, parse_expected last L line tag
        = ParseResult.ok (WhichLine.AdjustBackward n) ⟨usizeSub L n, k, m⟩) ∧
    (n ≤ L → usizeSub L n = L - n) ∧
    (L ≤ n → usizeSub L n = 0 ∨ L < usizeSub L n) := by
  refine ⟨?_, fun hle => usizeSub_of_le L n hle hLU,
    fun hge => usizeSub_of_ge L n hge hLU hnU⟩
  obtain ⟨d, hd⟩ : ∃ d, line.drop (s + tag.length) = '^' :: d := by
    cases hdrop : line.drop (s + tag.length) with
    | nil =>
        rw [hdrop] at hn
        simp at hn
        omega
    | cons c cs =>
        rw [hdrop] at hn
        by_cases hcc : (c == '^') = true
        · have hc2 : c = '^' := by simpa using hcc
          exact ⟨cs, by rw [hc2]⟩
        · have hcf : (c == '^') = false := by simpa using hcc
          rw [List.takeWhile_cons, hcf] at hn
          simp at hn
          omega
  have hchar : char_at line (s + tag.length) = some '^' := by
    unfold char_at
    rw [hd]
    rfl
  refine ⟨kindAt line (s + tag.length + n), msgAt line (s + tag.length + n), ?_⟩
  rw [parse_expected_adjust last L line tag s '^' n hf hchar (by decide) hn,
    if_pos hpos]

theorem C3_adjust_unchecked_witness :
    (∃ k m, parse_expected none 1 ("//~^^ E m".toList) ("//~".toList)
        = ParseResult.ok (WhichLine.AdjustBackward 2) ⟨usizeSub 1 2, k, m⟩) ∧
    ((2 : Nat) ≤ 1 → usizeSub 1 2 = 1 - 2) ∧
    ((1 : Nat) ≤ 2 → usizeSub 1 2 = 0 ∨ 1 < usizeSub 1 2) :=
  C3_adjust_unchecked none 1 ("//~^^ E m".toList) ("//~".toList) 0 2
    (by decide) (by decide) (by decide) (by decide) (by decide)

/-- Claim C5: a scan whose first trigger-matching line is a follow
annotation (every earlier line lacks the trigger, so no anchor was ever
remembered) aborts with the fatal missing-anchor error and emits no
records at all. -/
theorem C5_first_follow_fatal (cfg : Option (List Char)) (pre : List (List Char))
    (line : List Char) (post : List (List Char)) (s : Nat)
    (hpre : ∀ l ∈ pre, findSub (mkTag cfg) l = none)
    (hf : findSub (mkTag cfg) line = some s)
    (hc : char_at line (s + (mkTag cfg).length) = some '|') :
    load_errors (pre ++ line :: post) cfg
      = Except.error Failure.followWithoutAnchor := by
  unfold load_errors
  exact load_errors_go_follow_fatal (mkTag cfg) line post s hf hc pre hpre 0

theorem C5_first_follow_fatal_witness :
    findSub (mkTag none) ("//~| ERROR x".toList) = some 0 ∧
    load_errors [("//~| ERROR x".toList)] none
      = Except.error Failure.followWithoutAnchor :=
  ⟨by decide,
   C5_first_follow_fatal none [] ("//~| ERROR x".toList) [] 0
     (by intro l hl; cases hl) (by decide) (by decide)⟩

/-- Claim C6: `//~ ERROR boom` at line L yields the record
{L, "error", "boom"}, and `//~^^^ WARN msg` at line L (with 3 ≤ L)
yields {L - 3, "warn", "msg"}, kind and msg extracted identically. -/
theorem C6_basic_records (last : Option Nat) (L : Nat) (hL : L < USIZE) :
    parse_expected last L ("//~ ERROR boom".toList) ("//~".toList)
      = ParseResult.ok WhichLine.ThisLine ⟨L, "error".toList, "boom".toList⟩ ∧
    (3 ≤ L → parse_expected last L ("//~^^^ WARN msg".toList) ("//~".toList)
      = ParseResult.ok (WhichLine.AdjustBackward 3)
          ⟨L - 3, "warn".toList, "msg".toList⟩) := by
  constructor
  · have h : parse_expected last L ("//~ ERROR boom".toList) ("//~".toList)
        = ParseResult.ok WhichLine.ThisLine
            ⟨usizeSub L 0, "error".toList, "boom".toList⟩ := by
      rfl
    rw [h, usizeSub_zero L hL]
  · intro h3
    have h : parse_expected last L ("//~^^^ WARN msg".toList) ("//~".toList)
        = ParseResult.ok (WhichLine.AdjustBackward 3)
            ⟨usizeSub L 3, "warn".toList, "msg".toList⟩ := by
      rfl
    rw [h, usizeSub_of_le L 3 h3 hL]

theorem C6_basic_records_witness :
    (5 : Nat) < USIZE ∧
    parse_expected none 5 ("//~ ERROR boom".toList) ("//~".toList)
      = ParseResult.ok WhichLine.ThisLine ⟨5, "error".toList, "boom".toList⟩ ∧
    parse_expected none 5 ("//~^^^ WARN msg".toList) ("//~".toList)
      = ParseResult.ok (WhichLine.AdjustBackward 3)
          ⟨2, "warn".toList, "msg".toList⟩ := by
  have h := C6_basic_records none 5 (by decide)
  exact ⟨by decide, h.1, h.2 (by decide)⟩

/-- Claim C4: in any successful scan, a follow entry whose nearest
preceding non-follow entry is `(w₀, e₀)` (all entries in between are
follows) resolves to exactly `e₀.line_num` — follow entries never update
the remembered anchor, so arbitrarily many consecutive follow lines after
one anchor all resolve to that same line number. -/
theorem C4_follow_anchor (tag : List Char) (a : Option Nat) (idx : Nat)
    (ls : List (List Char)) (t pre₁ pre₂ post : List (WhichLine × ExpectedError))
    (w₀ w : WhichLine) (e₀ e : ExpectedError) (m : Nat)
    (hscan : scanTrace tag a idx ls = Except.ok t)
    (hdec : t = pre₁ ++ (w₀, e₀) :: (pre₂ ++ (w, e) :: post))
    (hw₀ : ∀ m', w₀ ≠ WhichLine.FollowPrevious m')
    (hpre₂ : ∀ p ∈ pre₂, ∃ m', p.1 = WhichLine.FollowPrevious m')
    (hw : w = WhichLine.FollowPrevious m) :
    load_errors_go tag a idx ls = Except.ok (t.map Prod.snd) ∧
    e.line_num = e₀.line_num ∧ m = e₀.line_num := by
  have h1 : load_errors_go tag a idx ls = Except.ok (t.map Prod.snd) := by
    rw [load_errors_go_eq_scanTrace, hscan]
    rfl
  refine ⟨h1, ?_⟩
  have hok := followOk_of_scanTrace tag ls a idx t hscan
  rw [hdec] at hok
  have hshape : pre₁ ++ (w₀, e₀) :: (pre₂ ++ (w, e) :: post)
      = (pre₁ ++ (w₀, e₀) :: pre₂) ++ ((w, e) :: post) := by
    simp
  rw [hshape] at hok
  have hok2 := followOk_append (pre₁ ++ (w₀, e₀) :: pre₂) ((w, e) :: post) a hok
  have hanch : anchorState a (pre₁ ++ (w₀, e₀) :: pre₂) = some e₀.line_num := by
    rw [anchorState_append]
    show anchorState (updateAnchor (anchorState a pre₁) w₀ e₀) pre₂ = _
    rw [updateAnchor_non_follow _ _ _ hw₀]
    exact anchorState_all_follow pre₂ _ hpre₂
  rw [hanch] at hok2
  obtain ⟨hsome, hline⟩ := hok2.1 m hw
  have hm : m = e₀.line_num := by
    injection hsome with h'
    exact h'.symm
  exact ⟨hline.trans hm, hm⟩

theorem C4_follow_anchor_witness :
    load_errors_go ("//~".toList) none 0
        [("//~ ERROR a".toList), ("//~| ERROR b".toList)]
      = Except.ok [⟨1, "error".toList, "a".toList⟩,
                   ⟨1, "error".toList, "b".toList⟩] ∧
    (⟨1, "error".toList, "b".toList⟩ : ExpectedError).line_num
      = (⟨1, "error".toList, "a".toList⟩ : ExpectedError).line_num ∧
    1 = (⟨1, "error".toList, "a".toList⟩ : ExpectedError).line_num := by
  have h := C4_follow_anchor ("//~".toList) none 0
    [("//~ ERROR a".toList), ("//~| ERROR b".toList)]
    [(WhichLine.ThisLine, ⟨1, "error".toList, "a".toList⟩),
     (WhichLine.FollowPrevious 1, ⟨1, "error".toList, "b".toList⟩)]
    [] [] [] WhichLine.ThisLine (WhichLine.FollowPrevious 1)
    ⟨1, "error".toList, "a".toList⟩ ⟨1, "error".toList, "b".toList⟩ 1
    (by rfl) (by rfl) (by intro m' hcon; cases hcon) (by intro p hp; cases hp) rfl
  exact h

/-- Claim C7 counterexample: with active tag `"a"` the trigger is the
verbatim literal `//[a]~`; the line `//[x//[a]~ ERROR y` contains
`//[U]~` for U = `"x//[a"` ≠ `"a"`, yet it DOES produce a record,
because nothing escapes the interpolated tag and `//[a]~` happens to
occur inside the text. -/
theorem C7_verbatim_tag_leak :
    ("x//[a".toList ≠ "a".toList) ∧
    findSub (mkTag (some ("x//[a".toList))) ("//[x//[a]~ ERROR y".toList) = some 0 ∧
    load_errors [("//[x//[a]~ ERROR y".toList)] (some ("a".toList))
      = Except.ok [⟨1, "error".toList, "y".toList⟩] :=
  ⟨by decide, by decide, by rfl⟩

/-- Claim C7 (amended): the trigger is `//[T]~` with T interpolated
verbatim when a tag is supplied and `//~` otherwise; the concrete spec
examples behave as claimed (plain `//~` inactive under tag "cfg1",
`//[cfg1]~` active, `//[cfg2]~` inactive), and in general a line produces
no record whenever the literal trigger does not occur in it — but not
for arbitrary `//[U]~` lines, since the unescaped interpolation lets the
trigger occur inside other text (see the counterexample). -/
theorem C7_amended_tag_trigger :
    mkTag (some ("cfg1".toList)) = "//[cfg1]~".toList ∧
    mkTag none = "//~".toList ∧
    load_errors [("//~ ERROR x".toList)] (some ("cfg1".toList)) = Except.ok [] ∧
    load_errors [("//[cfg1]~ ERROR x".toList)] (some ("cfg1".toList))
      = Except.ok [⟨1, "error".toList, "x".toList⟩] ∧
    load_errors [("//[cfg2]~ ERROR x".toList)] (some ("cfg1".toList)) = Except.ok [] ∧
    (∀ (line : List Char) (cfg : Option (List Char)),
      findSub (mkTag cfg) line = none → load_errors [line] cfg = Except.ok []) := by
  refine ⟨rfl, rfl, by rfl, by rfl, by rfl, ?_⟩
  intro line cfg hnone
  unfold load_errors
  rw [load_errors_go_cons, parse_expected_noMatch _ _ _ _ hnone]
  rfl

theorem C7_amended_tag_trigger_witness :
    findSub (mkTag (some ("cfg1".toList))) ("//~ ERROR x".toList) = none ∧
    load_errors [("//~ ERROR x".toList)] (some ("cfg1".toList)) = Except.ok [] :=
  ⟨by decide,
   C7_amended_tag_trigger.2.2.2.2.2 ("//~ ERROR x".toList)
     (some ("cfg1".toList)) (by decide)⟩

/-- Claim C8: for every matched line — the trigger at any offset, with
either marker form (a caret run, possibly empty, or the follow marker) —
whose text after the marker run splits as whitespace ++ token ++ rest
(the token being the first maximal non-whitespace run, whitespace per
Unicode White_Space), the emitted msg is exactly the trimmed rest: the
re-scan from the kind's starting offset skips the leading whitespace and
the kind token and trims what remains. -/
theorem C8_msg_after_token (last : Option Nat) (a L k s : Nat)
    (line tag w t r : List Char)
    (hw : w.all rustIsWhitespace = true)
    (ht : t.all (fun c => !rustIsWhitespace c) = true)
    (htne : t ≠ [])
    (hr : headSat rustIsWhitespace r = true) :
    (findSub tag line = some s →
      line.drop (s + tag.length) = List.replicate k '^' ++ (w ++ (t ++ r)) →
      headSat (fun c => !(c == '^')) (w ++ (t ++ r)) = true →
      (k = 0 → headSat (fun c => !(c == '|')) (w ++ (t ++ r)) = true) →
      ∃ kd, parse_expected last L line tag
        = ParseResult.ok
            (if k > 0 then WhichLine.AdjustBackward k else WhichLine.ThisLine)
            ⟨usizeSub L k, kd, rustTrim r⟩) ∧
    (findSub tag line = some s →
      line.drop (s + tag.length) = '|' :: (w ++ (t ++ r)) →
      ∃ kd, parse_expected (some a) L line tag
        = ParseResult.ok (WhichLine.FollowPrevious a) ⟨a, kd, rustTrim r⟩) := by
  constructor
  · intro hf hrest hsep1 hsep2
    exact ⟨_, parse_decomp last L k s line tag w t r hf hrest hw ht htne hr hsep1 hsep2⟩
  · intro hf hrest
    exact ⟨_, parse_decomp_follow L s a line tag w t r hf hrest hw ht htne hr⟩

theorem C8_msg_after_token_witness :
    (∃ kd, parse_expected none 1 ("let x = 1; //~ ERROR   spaced out   ".toList)
        ("//~".toList)
      = ParseResult.ok WhichLine.ThisLine ⟨1, kd, "spaced out".toList⟩) ∧
    (∃ kd, parse_expected (some 7) 9 ("//~| NOTE   tail msg ".toList) ("//~".toList)
      = ParseResult.ok (WhichLine.FollowPrevious 7) ⟨7, kd, "tail msg".toList⟩) := by
  constructor
  · obtain ⟨kd, hk⟩ := (C8_msg_after_token none 0 1 0 11
      ("let x = 1; //~ ERROR   spaced out   ".toList) ("//~".toList)
      (" ".toList) ("ERROR".toList) ("   spaced out   ".toList)
      (by decide) (by decide) (by decide) (by decide)).1
      (by decide) (by decide) (by decide) (by decide)
    exact ⟨kd, by exact hk⟩
  · obtain ⟨kd, hk⟩ := (C8_msg_after_token none 7 9 0 0
      ("//~| NOTE   tail msg ".toList) ("//~".toList)
      (" ".toList) ("NOTE".toList) ("   tail msg ".toList)
      (by decide) (by decide) (by decide) (by decide)).2
      (by decide) (by decide)
    exact ⟨kd, by exact hk⟩

/-- Claim C9 (spec-modelled lower-casing): for every matched line — the
trigger at any offset, adjust or follow form — the emitted kind is the
per-character lower-casing of the first whitespace-delimited token after
the marker run, so two matched lines whose kind tokens have the same
lower-casing yield the identical kind value; concretely `//~ ERROR x`,
`//~ Error x` and `//~ eRrOr x` all give kind `"error"`. -/
theorem C9_kind_case_insensitive (last : Option Nat) (L k s : Nat)
    (line tag w t r : List Char)
    (hw : w.all rustIsWhitespace = true)
    (ht : t.all (fun c => !rustIsWhitespace c) = true)
    (htne : t ≠ [])
    (hr : headSat rustIsWhitespace r = true)
    (hf : findSub tag line = some s)
    (hrest : line.drop (s + tag.length) = List.replicate k '^' ++ (w ++ (t ++ r)))
    (hsep1 : headSat (fun c => !(c == '^')) (w ++ (t ++ r)) = true)
    (hsep2 : k = 0 → headSat (fun c => !(c == '|')) (w ++ (t ++ r)) = true) :
    (∃ wch, parse_expected last L line tag
        = ParseResult.ok wch
            ⟨usizeSub L k, flatMapChars rustCharToLowercase t, rustTrim r⟩) ∧
    (∀ (a L₂ s₂ : Nat) (line₂ w₂ r₂ : List Char),
      w₂.all rustIsWhitespace = true →
      headSat rustIsWhitespace r₂ = true →
      findSub tag line₂ = some s₂ →
      line₂.drop (s₂ + tag.length) = '|' :: (w₂ ++ (t ++ r₂)) →
      parse_expected (some a) L₂ line₂ tag
        = ParseResult.ok (WhichLine.FollowPrevious a)
            ⟨a, flatMapChars rustCharToLowercase t, rustTrim r₂⟩) ∧
    (∀ (last₂ : Option Nat) (L₂ k₂ s₂ : Nat) (line₂ tag₂ w₂ t₂ r₂ : List Char),
      w₂.all rustIsWhitespace = true →
      t₂.all (fun c => !rustIsWhitespace c) = true →
      t₂ ≠ [] →
      headSat rustIsWhitespace r₂ = true →
      findSub tag₂ line₂ = some s₂ →
      line₂.drop (s₂ + tag₂.length) = List.replicate k₂ '^' ++ (w₂ ++ (t₂ ++ r₂)) →
      headSat (fun c => !(c == '^')) (w₂ ++ (t₂ ++ r₂)) = true →
      (k₂ = 0 → headSat (fun c => !(c == '|')) (w₂ ++ (t₂ ++ r₂)) = true) →
      flatMapChars rustCharToLowercase t = flatMapChars rustCharToLowercase t₂ →
      ∃ wch e wch₂ e₂,
        parse_expected last L line tag = ParseResult.ok wch e ∧
        parse_expected last₂ L₂ line₂ tag₂ = ParseResult.ok wch₂ e₂ ∧
        e.kind = e₂.kind) ∧
    (parse_expected none 1 ("//~ ERROR x".toList) ("//~".toList)
        = ParseResult.ok WhichLine.ThisLine ⟨1, "error".toList, "x".toList⟩ ∧
     parse_expected none 1 ("//~ Error x".toList) ("//~".toList)
        = ParseResult.ok WhichLine.ThisLine ⟨1, "error".toList, "x".toList⟩ ∧
     parse_expected none 1 ("//~ eRrOr x".toList) ("//~".toList)
        = ParseResult.ok WhichLine.ThisLine ⟨1, "error".toList, "x".toList⟩) := by
  refine ⟨⟨_, parse_decomp last L k s line tag w t r hf hrest hw ht htne hr
      hsep1 hsep2⟩, ?_, ?_, by rfl, by rfl, by rfl⟩
  · intro a L₂ s₂ line₂ w₂ r₂ hw₂ hr₂ hf₂ hrest₂
    exact parse_decomp_follow L₂ s₂ a line₂ tag w₂ t r₂ hf₂ hrest₂ hw₂ ht htne hr₂
  · intro last₂ L₂ k₂ s₂ line₂ tag₂ w₂ t₂ r₂ hw₂ ht₂ htne₂ hr₂ hf₂ hrest₂
      hsep1₂ hsep2₂ hcase
    refine ⟨_, _, _, _,
      parse_decomp last L k s line tag w t r hf hrest hw ht htne hr hsep1 hsep2,
      parse_decomp last₂ L₂ k₂ s₂ line₂ tag₂ w₂ t₂ r₂ hf₂ hrest₂ hw₂ ht₂ htne₂
        hr₂ hsep1₂ hsep2₂, ?_⟩
    show flatMapChars rustCharToLowercase t = flatMapChars rustCharToLowercase t₂
    exact hcase

theorem C9_kind_case_insensitive_witness :
    ∃ wch e wch₂ e₂,
      parse_expected none 1 ("//~ ERROR boom".toList) ("//~".toList)
        = ParseResult.ok wch e ∧
      parse_expected none 2 ("//~ eRrOr boom".toList) ("//~".toList)
        = ParseResult.ok wch₂ e₂ ∧
      e.kind = e₂.kind := by
  have h := (C9_kind_case_insensitive none 1 0 0 ("//~ ERROR boom".toList)
      ("//~".toList) (" ".toList) ("ERROR".toList) (" boom".toList)
      (by decide) (by decide) (by decide) (by decide) (by decide) (by decide)
      (by decide) (by decide)).2.2.1
  exact h none 2 0 0 ("//~ eRrOr boom".toList) ("//~".toList) (" ".toList)
    ("eRrOr".toList) (" boom".toList)
    (by decide) (by decide) (by decide) (by decide) (by decide) (by decide)
    (by decide) (by decide) (by decide)

/-- Claim C10: the mutual-exclusion assertion is satisfied on every
possible input and can never fire — no input makes `parse_expected`
abort with `bothFollowAndAdjust`, because the `|` branch unconditionally
sets the adjustment count to 0; consequently carets written after `//~|`
are consumed as ordinary kind/message text, as the concrete evaluation
shows. -/
theorem C10_assert_unreachable :
    (∀ (last : Option Nat) (L : Nat) (line tag : List Char),
        parse_expected last L line tag
          ≠ ParseResult.fatal Failure.bothFollowAndAdjust) ∧
    parse_expected (some 1) 2 ("//~|^ ERROR x".toList) ("//~".toList)
      = ParseResult.ok (WhichLine.FollowPrevious 1)
          ⟨1, "^".toList, "ERROR x".toList⟩ := by
  constructor
  · intro last L line tag h
    cases hfind : findSub tag line with
    | none =>
        rw [parse_expected_noMatch last L line tag hfind] at h
        simp at h
    | some start =>
        cases hchar : char_at line (start + tag.length) with
        | none =>
            rw [parse_expected_oob last L line tag start hfind hchar] at h
            simp at h
        | some c =>
            by_cases hcp : (c == '|') = true
            · have hc' : char_at line (start + tag.length) = some '|' := by
                rw [hchar]
                have hcc : c = '|' := by simpa using hcp
                rw [hcc]
              rw [parse_expected_follow last L line tag start hfind hc'] at h
              cases last with
              | none => simp at h
              | some anchor => simp at h
            · have hcpf : (c == '|') = false := by simpa using hcp
              rw [parse_expected_adjust last L line tag start c
                (((line.drop (start + tag.length)).takeWhile
                  (fun ch => ch == '^')).length)
                hfind hchar hcpf rfl] at h
              simp at h
  · rfl

end CompiletestErrors
